import Mathlib

/-
  Shallow embedding of the checkers engine (board.py / game.py / ai.py / checker.py).

  Coordinates are modelled as Int (the Python traversal code produces transiently
  negative indices that are filtered by the bounds check in Board.get_checker).
  Python dicts are modelled as insertion-ordered association lists with
  overwrite-in-place semantics (dictInsert / dictUpdate), matching dict.update.
  The mutually recursive diagonal scans _traverse_left/_traverse_right are
  embedded with a fuel parameter; fuel 200 is far above the recursion depth
  reachable on an 8x8 board (each nested call advances at least one row).
  The pygame animation layer runs its callbacks synchronously to completion, so
  a move command is embedded as a pure state transformer; the game session is
  modelled in mode 'local' (PvP), in which ai_player is None and the AI branch
  of change_turn is dead code.
-/

namespace Checkers

set_option maxHeartbeats 4000000

set_option maxRecDepth 200000

inductive Color where
  | white
  | black
deriving DecidableEq, Repr

def Color.opp : Color → Color
  | Color.white => Color.black
  | Color.black => Color.white

/-- Checker (checker.py): color, position, king flag. The pixel/animation fields
are presentation-only and omitted. -/
structure Checker where
  color : Color
  row : Int
  col : Int
  is_king : Bool
deriving DecidableEq, Repr

abbrev Grid := List (List (Option Checker))

def boardRows : Int := 8

def boardCols : Int := 8

/-- Board.get_checker: bounds-checked cell read; None outside the 8x8 grid. -/
def get_checker (g : Grid) (row col : Int) : Option Checker :=
  if 0 ≤ row ∧ row < boardRows ∧ 0 ≤ col ∧ col < boardCols then
    (g.getD row.toNat []).getD col.toNat none
  else
    none

/-- Overwrite of a single grid cell, used to embed the Python statements
of the form board[r][c] = v. -/
def setCell (g : Grid) (row col : Int) (v : Option Checker) : Grid :=
  g.set row.toNat ((g.getD row.toNat []).set col.toNat v)

/-- A per-piece move map { (row,col) : [captured checkers] }, as an
insertion-ordered association list (the Python dict). -/
abbrev MoveMap := List ((Int × Int) × List Checker)

/-- Python dict assignment d[k] = v: overwrite in place if the key exists,
else append. -/
def dictInsert (m : MoveMap) (k : Int × Int) (v : List Checker) : MoveMap :=
  if m.any (fun p => decide (p.1 = k)) then
    m.map (fun p => if p.1 = k then (k, v) else p)
  else
    m ++ [(k, v)]

/-- Python dict.update: insert every entry of the second dict in order. -/
def dictUpdate (m m2 : MoveMap) : MoveMap :=
  m2.foldl (fun acc p => dictInsert acc p.1 p.2) m

def dictGet (m : MoveMap) (k : Int × Int) : Option (List Checker) :=
  (m.find? (fun p => decide (p.1 = k))).map (fun p => p.2)

def dictKeys (m : MoveMap) : List (Int × Int) := m.map (fun p => p.1)

/-- Exhaustion test of the Python range(start, stop, step) loop at current
value r: for positive step the loop runs while r < stop, for negative step
while r > stop. -/
def rangeDone (r stop step : Int) : Bool :=
  if 0 ≤ step then decide (stop ≤ r) else decide (r ≤ stop)

mutual

/-- Game._traverse_left: wrapper starting the range loop with last = []. -/
def traverse_left : Nat → Grid → Int → Int → Int → Color → Int → List Checker → MoveMap
  | 0, _, _, _, _, _, _, _ => []
  | f+1, g, start, stop, step, color, left, skipped =>
      tlGo f g start stop step color left skipped []

/-- Game._traverse_right: wrapper starting the range loop with last = []. -/
def traverse_right : Nat → Grid → Int → Int → Int → Color → Int → List Checker → MoveMap
  | 0, _, _, _, _, _, _, _ => []
  | f+1, g, start, stop, step, color, right, skipped =>
      trGo f g start stop step color right skipped []

/-- Loop body of _traverse_left: r iterates over range(start, stop, step);
the range is exhausted when r has passed stop in the direction of step. -/
def tlGo : Nat → Grid → Int → Int → Int → Color → Int → List Checker → List Checker → MoveMap
  | 0, _, _, _, _, _, _, _, _ => []
  | f+1, g, r, stop, step, color, left, skipped, last =>
      if rangeDone r stop step then []
      else if left < 0 then []
      else
        match get_checker g r left with
        | none =>
            if skipped ≠ [] ∧ last = [] then []
            else
              let entry := if skipped ≠ [] then last ++ skipped else last
              let m0 : MoveMap := [((r, left), entry)]
              if last ≠ [] then
                let row := if step = -1 then max (r-3) (-1) else min (r+3) boardRows
                let m1 := dictUpdate m0 (traverse_left f g (r+step) row step color (left-1) last)
                dictUpdate m1 (traverse_right f g (r+step) row step color (left+1) last)
              else m0
        | some current =>
            if current.color = color then []
            else tlGo f g (r+step) stop step color (left-1) skipped [current]

/-- Loop body of _traverse_right. -/
def trGo : Nat → Grid → Int → Int → Int → Color → Int → List Checker → List Checker → MoveMap
  | 0, _, _, _, _, _, _, _, _ => []
  | f+1, g, r, stop, step, color, right, skipped, last =>
      if rangeDone r stop step then []
      else if boardCols ≤ right then []
      else
        match get_checker g r right with
        | none =>
            if skipped ≠ [] ∧ last = [] then []
            else
              let entry := if skipped ≠ [] then last ++ skipped else last
              let m0 : MoveMap := [((r, right), entry)]
              if last ≠ [] then
                let row := if step = -1 then max (r-3) (-1) else min (r+3) boardRows
                let m1 := dictUpdate m0 (traverse_left f g (r+step) row step color (right-1) last)
                dictUpdate m1 (traverse_right f g (r+step) row step color (right+1) last)
              else m0
        | some current =>
            if current.color = color then []
            else trGo f g (r+step) stop step color (right+1) skipped [current]

end

/-- Recursion budget for the diagonal scans; far above anything reachable on
the 8x8 board. -/
def fuelN : Nat := 200

/-- The upward (black / king) capture scan block of Game.get_valid_moves. -/
def up_captures (g : Grid) (checker : Checker) : MoveMap :=
  if checker.color = Color.black ∨ checker.is_king then
    dictUpdate (dictUpdate [] (traverse_left fuelN g (checker.row-1) (max (checker.row-3) (-1)) (-1) checker.color (checker.col-1) []))
      (traverse_right fuelN g (checker.row-1) (max (checker.row-3) (-1)) (-1) checker.color (checker.col+1) [])
  else []

/-- The capture scan of Game.get_valid_moves: upward block updated with the
downward (white / king) block. -/
def all_captures (g : Grid) (checker : Checker) : MoveMap :=
  if checker.color = Color.white ∨ checker.is_king then
    dictUpdate (dictUpdate (up_captures g checker) (traverse_left fuelN g (checker.row+1) (min (checker.row+3) boardRows) 1 checker.color (checker.col-1) []))
      (traverse_right fuelN g (checker.row+1) (min (checker.row+3) boardRows) 1 checker.color (checker.col+1) [])
  else up_captures g checker

/-- The quiet-move block of Game.get_valid_moves: adjacent empty forward
diagonal cells. -/
def quiet_moves (g : Grid) (checker : Checker) : MoveMap :=
  (if checker.color = Color.black ∨ checker.is_king then
    (if checker.row-1 ≥ 0 ∧ checker.col-1 ≥ 0 ∧ get_checker g (checker.row-1) (checker.col-1) = none then [((checker.row-1, checker.col-1), [])] else []) ++
    (if checker.row-1 ≥ 0 ∧ checker.col+1 < boardCols ∧ get_checker g (checker.row-1) (checker.col+1) = none then [((checker.row-1, checker.col+1), [])] else [])
  else []) ++
  (if checker.color = Color.white ∨ checker.is_king then
    (if checker.row+1 < boardRows ∧ checker.col-1 ≥ 0 ∧ get_checker g (checker.row+1) (checker.col-1) = none then [((checker.row+1, checker.col-1), [])] else []) ++
    (if checker.row+1 < boardRows ∧ checker.col+1 < boardCols ∧ get_checker g (checker.row+1) (checker.col+1) = none then [((checker.row+1, checker.col+1), [])] else [])
  else [])

/-- Game.get_valid_moves: capture scan in the allowed directions, mandatory
per-piece capture filter, else quiet moves. -/
def get_valid_moves (g : Grid) (checker : Checker) : MoveMap :=
  if (all_captures g checker).any (fun p => decide (p.2 ≠ [])) then
    (all_captures g checker).filter (fun p => decide (p.2 ≠ []))
  else
    quiet_moves g checker

/-- The 64 cells scanned by Game.get_all_valid_moves, in row-major order. -/
def boardCells : List (Int × Int) :=
  (List.range 8).flatMap (fun r => (List.range 8).map (fun c => (Int.ofNat r, Int.ofNat c)))

/-- One iteration of the cell scan in Game.get_all_valid_moves, threading the
accumulated move dict and the sticky has_captures flag. -/
def gavmStep (g : Grid) (color : Color) (acc : List ((Int × Int) × MoveMap) × Bool)
    (pos : Int × Int) : List ((Int × Int) × MoveMap) × Bool :=
  match get_checker g pos.1 pos.2 with
  | some ck =>
      if ck.color = color then
        let moves := get_valid_moves g ck
        if moves ≠ [] then
          let has2 := acc.2 || moves.any (fun p => decide (p.2 ≠ []))
          if has2 then
            let capturing := moves.filter (fun p => decide (p.2 ≠ []))
            if capturing ≠ [] then (acc.1 ++ [(pos, capturing)], has2) else (acc.1, has2)
          else (acc.1 ++ [(pos, moves)], has2)
        else acc
      else acc
  | none => acc

/-- Game.get_all_valid_moves: scan all cells, then apply the color-level
mandatory-capture filter when any capture was seen. -/
def get_all_valid_moves (g : Grid) (color : Color) : List ((Int × Int) × MoveMap) :=
  let res := boardCells.foldl (gavmStep g color) ([], false)
  if res.2 then
    res.1.filter (fun p => p.2.any (fun q => decide (q.2 ≠ [])))
  else res.1

/-- Board.create_board: standard starting position, pieces on dark squares
of the first three and last three rows. -/
def create_board : Grid :=
  (List.range 8).map (fun row => (List.range 8).map (fun col =>
    if ((row : Int) + (col : Int)) % 2 = 1 then
      if (row : Int) < 3 then some ⟨Color.white, (row : Int), (col : Int), false⟩
      else if (row : Int) > 4 then some ⟨Color.black, (row : Int), (col : Int), false⟩
      else none
    else none))

/-- Number of pieces of a color on the grid, as summed by Board.winner. -/
def countColor (g : Grid) (color : Color) : Nat :=
  (g.map (fun row => (row.filter (fun c => match c with
    | some ck => decide (ck.color = color)
    | none => false)).length)).sum

/-- Total number of occupied cells. -/
def piecesOn (g : Grid) : Nat :=
  (g.map (fun row => (row.filter Option.isSome).length)).sum

/-- Board.winner: the white count is tested first. -/
def board_winner (g : Grid) : Option Color :=
  if countColor g Color.white = 0 then some Color.black
  else if countColor g Color.black = 0 then some Color.white
  else none

/-- Board.remove: clear the grid cell of every captured checker. -/
def board_remove (g : Grid) (cs : List Checker) : Grid :=
  cs.foldl (fun acc c => setCell acc c.row c.col none) g

/-- Board.move: clear the old cell, occupy the destination, update the piece's
stored position (Checker.move_to). -/
def board_move (g : Grid) (c : Checker) (row col : Int) : Grid × Checker :=
  let g1 := setCell g c.row c.col none
  let c2 := { c with row := row, col := col }
  (setCell g1 row col (some c2), c2)

/-- One step of a decomposed multi-capture (an entry of Game.multi_capture). -/
structure CapStep where
  from_pos : Int × Int
  to_pos : Int × Int
  captured : List Checker
deriving DecidableEq, Repr

/-- Game._split_multi_capture: one single-capture step per entry of the
captured list, each landing on the integer midpoint of the current position
and the captured piece's position, plus a final step to the target. -/
def split_multi_capture (c : Checker) (target_row target_col : Int)
    (captured : List Checker) : List CapStep :=
  let acc := captured.foldl
    (fun (acc : List CapStep × (Int × Int)) cap =>
      let mid_row := Int.fdiv (acc.2.1 + cap.row) 2
      let mid_col := Int.fdiv (acc.2.2 + cap.col) 2
      (acc.1 ++ [⟨acc.2, (mid_row, mid_col), [cap]⟩], (mid_row, mid_col)))
    ([], (c.row, c.col))
  acc.1 ++ [⟨acc.2, (target_row, target_col), []⟩]

/-- Game.process_next_capture, one step: remove the step's captured piece if
any, then relocate the moving checker to the step's destination. -/
def exec_step (gc : Grid × Checker) (st : CapStep) : Grid × Checker :=
  let g1 := if st.captured ≠ [] then board_remove gc.1 st.captured else gc.1
  board_move g1 gc.2 st.to_pos.1 st.to_pos.2

/-- The full multi-capture driver loop (process_next_capture advanced by
on_capture_animation_done until every step is consumed). -/
def exec_steps (g : Grid) (c : Checker) (steps : List CapStep) : Grid × Checker :=
  steps.foldl exec_step (g, c)

/-- Board state after the first n steps of a decomposed multi-capture: the
intermediate states of the ChainCapturing driver. -/
def exec_steps_upto (g : Grid) (c : Checker) (steps : List CapStep) (n : Nat) : Grid × Checker :=
  exec_steps g c (steps.take n)

/-- The promotion check shared by Game._on_single_move_complete and
Game._finish_multicapture: a black piece on row 0 or a white piece on the
last row becomes a king. -/
def promoteIfFarRow (c : Checker) (row : Int) : Checker :=
  if (row = 0 ∧ c.color = Color.black) ∨ (row = boardRows - 1 ∧ c.color = Color.white) then
    { c with is_king := true }
  else c

/-- Game session state (game.py fields; animation-only fields omitted;
current_capture_index is always 0 outside the synchronous chain driver). -/
structure GameState where
  grid : Grid
  turn : Color
  selected : Option Checker
  valid_moves : MoveMap
  game_over : Bool
  multi_capture : List CapStep
deriving DecidableEq, Repr

/-- Game._check_game_over: opposing color wins if the side to move has no
valid moves. -/
def check_game_over (g : Grid) (turn : Color) : Option Color :=
  if get_all_valid_moves g turn = [] then some turn.opp else none

/-- Game.change_turn: clear selection, flip the turn, then compute the local
winner value (self._check_game_over() or self.board.winner()); the session
becomes game_over when it is non-None. The second component returns that
local winner value. The AI branch is dead code in mode 'local'. -/
def change_turn (s : GameState) : GameState × Option Color :=
  let s1 := { s with selected := none, valid_moves := [], turn := s.turn.opp }
  let w := match check_game_over s1.grid s1.turn with
    | some c => some c
    | none => board_winner s1.grid
  match w with
  | some _ => ({ s1 with game_over := true }, w)
  | none => (s1, w)

/-- Game._on_single_move_complete: promotion check on the landing row, then
an unconditional change of turn. The promoted king flag is written back to
the grid cell (in Python the grid aliases the mutated Checker object). -/
def on_single_move_complete (s : GameState) (c : Checker) (row col : Int) : GameState :=
  let c2 := promoteIfFarRow c row
  let g2 := setCell s.grid c2.row c2.col (some c2)
  (change_turn { s with grid := g2 }).1

/-- Game._execute_single_move: remove the captured piece if any, relocate,
then run the completion callback. -/
def execute_single_move (s : GameState) (c : Checker) (row col : Int)
    (captured : List Checker) : GameState :=
  let g1 := if captured ≠ [] then board_remove s.grid captured else s.grid
  let gc := board_move g1 c row col
  on_single_move_complete { s with grid := gc.1 } gc.2 row col

/-- Game._finish_multicapture: promotion check at the landed square, then a
continuation check; if the landed piece still has a capture it stays
selected without a turn flip, otherwise the turn changes. The king-flag
condition of the source reduces to True and is kept verbatim. -/
def finish_multicapture (s : GameState) (c : Checker) : GameState :=
  let c2 := promoteIfFarRow c c.row
  let g2 := setCell s.grid c2.row c2.col (some c2)
  let vm := get_valid_moves g2 c2
  let s1 := { s with grid := g2, multi_capture := [], valid_moves := vm }
  if vm.any (fun p => decide (p.2 ≠ [])) ∧ (c2.is_king ∨ ¬ (c2.is_king = true)) then
    { s1 with selected := some c2 }
  else (change_turn s1).1

/-- Game.handle_move: a captured list of length > 1 is decomposed into
single-jump steps and driven to completion; otherwise the single move
executes directly. -/
def handle_move (s : GameState) (row col : Int) : GameState :=
  match s.selected with
  | none => s
  | some checker =>
      let captured := (dictGet s.valid_moves (row, col)).getD []
      if captured.length > 1 then
        let steps := split_multi_capture checker row col captured
        let gc := exec_steps s.grid checker steps
        finish_multicapture { s with grid := gc.1, multi_capture := steps } gc.2
      else
        execute_single_move s checker row col captured

/-- The move-or-fallback tail of Game.select: execute a move on a destination
of the current selection, reject a quiet destination under mandatory capture,
and otherwise clear the selection and reject. -/
def select_move_phase (s : GameState) (row col : Int) (must_capture : Bool) : GameState × Bool :=
  match s.selected with
  | some _ =>
      match dictGet s.valid_moves (row, col) with
      | some captured =>
          if must_capture ∧ captured = [] then (s, false)
          else (handle_move s row col, true)
      | none => ({ s with selected := none, valid_moves := [] }, false)
  | none => ({ s with selected := none, valid_moves := [] }, false)

/-- Game.select: selection of an own checker (restricted to capturing pieces
under mandatory capture), or move execution, or rejection. -/
def select (s : GameState) (row col : Int) : GameState × Bool :=
  if s.game_over then (s, false)
  else
    let all_moves := get_all_valid_moves s.grid s.turn
    let must_capture := all_moves.any (fun p => p.2.any (fun q => decide (q.2 ≠ [])))
    match get_checker s.grid row col with
    | some ck =>
        if ck.color = s.turn ∧ s.multi_capture = [] then
          if must_capture ∧ ¬ ((get_valid_moves s.grid ck).any (fun q => decide (q.2 ≠ [])) = true) then
            (s, false)
          else
            let vm0 := get_valid_moves s.grid ck
            let vm := if must_capture then vm0.filter (fun p => decide (p.2 ≠ [])) else vm0
            if must_capture ∧ vm = [] then ({ s with selected := none, valid_moves := vm }, false)
            else ({ s with selected := some ck, valid_moves := vm }, true)
        else select_move_phase s row col must_capture
    | none => select_move_phase s row col must_capture

/-- The freshly constructed game session (mode 'local'): white to move on the
standard starting board. -/
def initial_state : GameState :=
  { grid := create_board, turn := Color.white, selected := none,
    valid_moves := [], game_over := false, multi_capture := [] }

/-! Helper lemmas about the color-level move scan. -/

theorem gavmStep_flag_mono (g : Grid) (color : Color) (acc : List ((Int × Int) × MoveMap) × Bool)
    (pos : Int × Int) (h : acc.2 = true) : (gavmStep g color acc pos).2 = true := by
  unfold gavmStep
  split
  · split
    · dsimp only
      split
      · rw [h]
        simp only [Bool.true_or]
        split
        · split <;> rfl
        · rfl
      · exact h
    · exact h
  · exact h

theorem gavm_fold_flag_mono (g : Grid) (color : Color) :
    ∀ (cells : List (Int × Int)) (acc : List ((Int × Int) × MoveMap) × Bool),
    acc.2 = true → (cells.foldl (gavmStep g color) acc).2 = true := by
  intro cells
  induction cells with
  | nil => intro acc h; exact h
  | cons a l ih =>
      intro acc h
      exact ih (gavmStep g color acc a) (gavmStep_flag_mono g color acc a h)

/-- A cell holding a piece of the scanned color whose per-piece move map
contains a capture. -/
def cellHasCapture (g : Grid) (color : Color) (pos : Int × Int) : Prop :=
  match get_checker g pos.1 pos.2 with
  | some ck => ck.color = color ∧ (get_valid_moves g ck).any (fun p => decide (p.2 ≠ [])) = true
  | none => False

theorem gavmStep_flag_trigger (g : Grid) (color : Color)
    (acc : List ((Int × Int) × MoveMap) × Bool) (pos : Int × Int)
    (h : cellHasCapture g color pos) : (gavmStep g color acc pos).2 = true := by
  unfold cellHasCapture at h
  unfold gavmStep
  split
  · rename_i ck hck
    rw [hck] at h
    have h2 : ck.color = color ∧ (get_valid_moves g ck).any (fun p => decide (p.2 ≠ [])) = true := h
    have hmoves : get_valid_moves g ck ≠ [] := by
      intro hnil
      rw [hnil] at h2
      simp [List.any_nil] at h2
    rw [if_pos h2.1]
    dsimp only
    rw [if_pos hmoves]
    rw [h2.2]
    simp only [Bool.or_true]
    split
    · split <;> rfl
    · rfl
  · rename_i hck
    rw [hck] at h
    exact h.elim

theorem gavm_fold_flag_trigger (g : Grid) (color : Color) :
    ∀ (cells : List (Int × Int)) (acc : List ((Int × Int) × MoveMap) × Bool)
    (pos : Int × Int), pos ∈ cells → cellHasCapture g color pos →
    (cells.foldl (gavmStep g color) acc).2 = true := by
  intro cells
  induction cells with
  | nil => intro acc pos h; exact absurd h (List.not_mem_nil pos)
  | cons a l ih =>
      intro acc pos h hcap
      rcases List.mem_cons.mp h with h1 | h1
      · subst h1
        exact gavm_fold_flag_mono g color l _ (gavmStep_flag_trigger g color acc pos hcap)
      · exact ih (gavmStep g color acc a) pos h1 hcap

/-- Every entry of the accumulated per-color dict has either only capturing
values or no capturing value at all. -/
def entryAllOrNothing (e : (Int × Int) × MoveMap) : Prop :=
  (∀ mv ∈ e.2, mv.2 ≠ []) ∨ (e.2.any (fun q => decide (q.2 ≠ [])) = false)

theorem gavmStep_entry_inv (g : Grid) (color : Color)
    (acc : List ((Int × Int) × MoveMap) × Bool) (pos : Int × Int)
    (h : ∀ e ∈ acc.1, entryAllOrNothing e) :
    ∀ e ∈ (gavmStep g color acc pos).1, entryAllOrNothing e := by
  unfold gavmStep
  split
  · split
    · dsimp only
      split
      · split
        · split
          · intro e he
            rcases List.mem_append.mp he with h1 | h1
            · exact h e h1
            · rcases List.mem_singleton.mp h1 with rfl
              left
              intro mv hmv
              have := List.of_mem_filter hmv
              simpa using this
          · exact h
        · intro e he
          rcases List.mem_append.mp he with h1 | h1
          · exact h e h1
          · rcases List.mem_singleton.mp h1 with rfl
            right
            rename_i hhas2
            simp only [Bool.or_eq_true, not_or] at hhas2
            exact Bool.eq_false_iff.mpr hhas2.2
      · exact h
    · exact h
  · exact h

theorem gavm_fold_entry_inv (g : Grid) (color : Color) :
    ∀ (cells : List (Int × Int)) (acc : List ((Int × Int) × MoveMap) × Bool),
    (∀ e ∈ acc.1, entryAllOrNothing e) →
    ∀ e ∈ (cells.foldl (gavmStep g color) acc).1, entryAllOrNothing e := by
  intro cells
  induction cells with
  | nil => intro acc h; exact h
  | cons a l ih =>
      intro acc h
      exact ih (gavmStep g color acc a) (gavmStep_entry_inv g color acc a h)

theorem get_checker_bounds (g : Grid) (row col : Int) (ck : Checker)
    (h : get_checker g row col = some ck) :
    0 ≤ row ∧ row < boardRows ∧ 0 ≤ col ∧ col < boardCols := by
  by_contra hb
  rw [get_checker, if_neg hb] at h
  exact Option.noConfusion h

theorem mem_boardCells (row col : Int) (h1 : 0 ≤ row) (h2 : row < 8)
    (h3 : 0 ≤ col) (h4 : col < 8) : (row, col) ∈ boardCells := by
  have hr : row.toNat ∈ List.range 8 := List.mem_range.mpr (by omega)
  have hc : col.toNat ∈ List.range 8 := List.mem_range.mpr (by omega)
  unfold boardCells
  refine List.mem_flatMap.mpr ⟨row.toNat, hr, List.mem_map.mpr ⟨col.toNat, hc, ?_⟩⟩
  have e1 : Int.ofNat row.toNat = row := Int.toNat_of_nonneg h1
  have e2 : Int.ofNat col.toNat = col := Int.toNat_of_nonneg h3
  rw [e1, e2]

/-- C1: Mandatory capture filter — whenever some piece of color C on the board
has a capture available, every entry of get_all_valid_moves C maps every
destination to a non-empty captured list (all quiet moves are excluded,
system-wide). -/
theorem C1_mandatory_capture_filter (g : Grid) (color : Color)
    (h : ∃ row col ck, get_checker g row col = some ck ∧ ck.color = color ∧
      (get_valid_moves g ck).any (fun p => decide (p.2 ≠ [])) = true) :
    ∀ e ∈ get_all_valid_moves g color, ∀ mv ∈ e.2, mv.2 ≠ [] := by
  obtain ⟨row, col, ck, hg, hc, hcap⟩ := h
  obtain ⟨hb1, hb2, hb3, hb4⟩ := get_checker_bounds g row col ck hg
  have hmem : (row, col) ∈ boardCells := mem_boardCells row col hb1 hb2 hb3 hb4
  have htrig : cellHasCapture g color (row, col) := by
    unfold cellHasCapture
    rw [hg]
    exact ⟨hc, hcap⟩
  have hflag : (boardCells.foldl (gavmStep g color) ([], false)).2 = true :=
    gavm_fold_flag_trigger g color boardCells ([], false) (row, col) hmem htrig
  have hinv : ∀ e ∈ (boardCells.foldl (gavmStep g color) ([], false)).1, entryAllOrNothing e :=
    gavm_fold_entry_inv g color boardCells ([], false) (by intro e he; exact absurd he (List.not_mem_nil e))
  intro e he mv hmv
  simp only [get_all_valid_moves, hflag, if_true] at he
  have hmemf := List.mem_filter.mp he
  rcases hinv e hmemf.1 with hall | hnone
  · exact hall mv hmv
  · rw [hnone] at hmemf
    exact absurd hmemf.2 (by simp)

/-- Concrete board for the C1 witness: a single black man at (5,2) with a
white man at (4,3) to capture. -/
def gridC1 : Grid :=
  (List.range 8).map (fun row => (List.range 8).map (fun col =>
    if (row, col) = (5, 2) then some ⟨Color.black, 5, 2, false⟩
    else if (row, col) = (4, 3) then some ⟨Color.white, 4, 3, false⟩
    else none))

theorem C1_mandatory_capture_filter_witness :
    (∃ row col ck, get_checker gridC1 row col = some ck ∧ ck.color = Color.black ∧
      (get_valid_moves gridC1 ck).any (fun p => decide (p.2 ≠ [])) = true) ∧
    (∀ e ∈ get_all_valid_moves gridC1 Color.black, ∀ mv ∈ e.2, mv.2 ≠ []) := by
  have h : ∃ row col ck, get_checker gridC1 row col = some ck ∧ ck.color = Color.black ∧
      (get_valid_moves gridC1 ck).any (fun p => decide (p.2 ≠ [])) = true :=
    ⟨5, 2, ⟨Color.black, 5, 2, false⟩, by decide, rfl, by decide⟩
  exact ⟨h, C1_mandatory_capture_filter gridC1 Color.black h⟩

/-- Board exhibiting a three-jump chain for the black man at (6,1): white men
at (5,2), (3,4) and (1,6), with (4,3), (2,5) and (0,7) empty. -/
def gridC2 : Grid :=
  (List.range 8).map (fun row => (List.range 8).map (fun col =>
    if (row, col) = (6, 1) then some ⟨Color.black, 6, 1, false⟩
    else if (row, col) = (5, 2) then some ⟨Color.white, 5, 2, false⟩
    else if (row, col) = (3, 4) then some ⟨Color.white, 3, 4, false⟩
    else if (row, col) = (1, 6) then some ⟨Color.white, 1, 6, false⟩
    else none))

/-- C2: Capture-path accumulation fails — the recursive scan passes only the
most recent single capture onward (skipped = last instead of last ++ skipped),
so the three-jump chain (6,1) -> (4,3) -> (2,5) -> (0,7) on gridC2 records a
captured list of length 2 ([piece(1,6), piece(3,4)]), silently dropping
piece(5,2); the claim requires length 3. -/
theorem C2_capture_accumulation_drops_pieces :
    dictGet (get_valid_moves gridC2 ⟨Color.black, 6, 1, false⟩) (0, 7) =
      some [⟨Color.white, 1, 6, false⟩, ⟨Color.white, 3, 4, false⟩] ∧
    ((dictGet (get_valid_moves gridC2 ⟨Color.black, 6, 1, false⟩) (0, 7)).getD []).length = 2 := by
  constructor
  · decide
  · decide

/-- Board for the C3 failing input: black mover at (5,2), an uninvolved black
man at (3,2), white men at (4,3) and (2,3). The zigzag chain
(5,2) -> (3,4) -> (1,2) captures exactly the two white men. -/
def gridC3 : Grid :=
  (List.range 8).map (fun row => (List.range 8).map (fun col =>
    if (row, col) = (5, 2) then some ⟨Color.black, 5, 2, false⟩
    else if (row, col) = (3, 2) then some ⟨Color.black, 3, 2, false⟩
    else if (row, col) = (4, 3) then some ⟨Color.white, 4, 3, false⟩
    else if (row, col) = (2, 3) then some ⟨Color.white, 2, 3, false⟩
    else none))

def stateC3 : GameState := { initial_state with grid := gridC3, turn := Color.black }

/-- C3: Chain conservation fails — executing the two-capture move of the black
man at (5,2) on gridC3 to destination (1,2) (captured list of length 2)
removes three pieces: the board drops from 4 pieces to 1, because the buggy
intermediate square (3,2) computed by _split_multi_capture overwrites the
uninvolved black man standing there. The final resting square does equal the
chosen destination. -/
theorem C3_chain_conservation_violated :
    (dictGet (select stateC3 5 2).1.valid_moves (1, 2) =
      some [⟨Color.white, 2, 3, false⟩, ⟨Color.white, 4, 3, false⟩]) ∧
    piecesOn stateC3.grid = 4 ∧
    piecesOn (select (select stateC3 5 2).1 1 2).1.grid = 1 ∧
    get_checker (select (select stateC3 5 2).1 1 2).1.grid 1 2 =
      some ⟨Color.black, 1, 2, false⟩ ∧
    get_checker (select (select stateC3 5 2).1 1 2).1.grid 3 2 = none := by
  refine ⟨by decide, by decide, by decide, by decide, by decide⟩

/-- Board for the C4 counterexample: black man at (5,2), white men at (4,3)
and (2,5); capturing (4,3) and stopping on (3,4) leaves the further capture
of (2,5) available to the landed piece. -/
def gridC4 : Grid :=
  (List.range 8).map (fun row => (List.range 8).map (fun col =>
    if (row, col) = (5, 2) then some ⟨Color.black, 5, 2, false⟩
    else if (row, col) = (4, 3) then some ⟨Color.white, 4, 3, false⟩
    else if (row, col) = (2, 5) then some ⟨Color.white, 2, 5, false⟩
    else none))

def stateC4 : GameState := { initial_state with grid := gridC4, turn := Color.black }

/-- C4 counterexample: a single capture (captured list of length 1) to (3,4)
is executed, the landed black man still has a capture available at (2,5), yet
the turn flips to white and the selection is cleared — the code checks for a
forced continuation only on the multi-capture path, never after a single
capture. -/
theorem C4_counterexample_single_capture_flips :
    dictGet (select stateC4 5 2).1.valid_moves (3, 4) =
      some [⟨Color.white, 4, 3, false⟩] ∧
    (select (select stateC4 5 2).1 3 4).2 = true ∧
    get_checker (select (select stateC4 5 2).1 3 4).1.grid 3 4 =
      some ⟨Color.black, 3, 4, false⟩ ∧
    (get_valid_moves (select (select stateC4 5 2).1 3 4).1.grid
      ⟨Color.black, 3, 4, false⟩).any (fun p => decide (p.2 ≠ [])) = true ∧
    (select (select stateC4 5 2).1 3 4).1.turn = Color.white ∧
    (select (select stateC4 5 2).1 3 4).1.selected = none := by
  refine ⟨by decide, by decide, by decide, by decide, by decide, by decide⟩

theorem change_turn_fields (s : GameState) :
    (change_turn s).1.turn = s.turn.opp ∧ (change_turn s).1.selected = none ∧
    (change_turn s).1.valid_moves = [] ∧ (change_turn s).1.grid = s.grid := by
  refine ⟨?_, ?_, ?_, ?_⟩ <;> (unfold change_turn; dsimp only; split <;> rfl)

theorem king_flag_taut (c : Checker) : c.is_king = true ∨ ¬ (c.is_king = true) := by
  cases h : c.is_king
  · exact Or.inr (by simp [h])
  · exact Or.inl rfl

/-- The checker after the landing promotion check of _finish_multicapture. -/
def landedChecker (c : Checker) : Checker := promoteIfFarRow c c.row

/-- The grid after the landing promotion check of _finish_multicapture. -/
def landedGrid (s : GameState) (c : Checker) : Grid :=
  setCell s.grid (landedChecker c).row (landedChecker c).col (some (landedChecker c))

/-- The landed piece's re-queried move map in _finish_multicapture. -/
def landedMoves (s : GameState) (c : Checker) : MoveMap :=
  get_valid_moves (landedGrid s c) (landedChecker c)

/-- C4 amended: the continuation check exists only on the multi-capture path.
After a single move (quiet or single capture) the turn always flips and the
selection is cleared, even if the landed piece has a further capture; after a
decomposed multi-capture, the landed piece stays selected without a turn flip
exactly when its re-queried move map still contains a capture. -/
theorem C4_amended_continuation_only_multicapture (s : GameState) (c : Checker)
    (row col : Int) (cap : List Checker) :
    ((execute_single_move s c row col cap).turn = s.turn.opp ∧
     (execute_single_move s c row col cap).selected = none) ∧
    (∀ s2 c2,
      ((landedMoves s2 c2).any (fun p => decide (p.2 ≠ [])) = true →
        (finish_multicapture s2 c2).turn = s2.turn ∧
        (finish_multicapture s2 c2).selected = some (landedChecker c2)) ∧
      ((landedMoves s2 c2).any (fun p => decide (p.2 ≠ [])) = false →
        (finish_multicapture s2 c2).turn = s2.turn.opp ∧
        (finish_multicapture s2 c2).selected = none)) := by
  constructor
  · unfold execute_single_move on_single_move_complete
    exact ⟨(change_turn_fields _).1, (change_turn_fields _).2.1⟩
  · intro s2 c2
    constructor
    · intro hany
      unfold finish_multicapture
      rw [if_pos ⟨hany, king_flag_taut _⟩]
      exact ⟨rfl, rfl⟩
    · intro hany
      unfold finish_multicapture
      rw [if_neg (by
        intro hcond
        have := hcond.1
        rw [landedMoves, landedGrid, landedChecker] at hany
        rw [this] at hany
        exact Bool.noConfusion hany)]
      exact ⟨(change_turn_fields _).1, (change_turn_fields _).2.1⟩

/-- Tiny state for the C4 witness: an empty board around a single black man. -/
def stateC4w : GameState := { initial_state with
  grid := (List.range 8).map (fun row => (List.range 8).map (fun col =>
    if (row, col) = (5, 2) then some ⟨Color.black, 5, 2, false⟩ else none)),
  turn := Color.black }

theorem C4_amended_continuation_only_multicapture_witness :
    (execute_single_move stateC4w ⟨Color.black, 5, 2, false⟩ 4 1 []).turn = Color.white ∧
    ((landedMoves stateC4w ⟨Color.black, 4, 1, false⟩).any (fun p => decide (p.2 ≠ [])) = false ∧
      (finish_multicapture stateC4w ⟨Color.black, 4, 1, false⟩).turn = Color.white) := by
  have h := C4_amended_continuation_only_multicapture stateC4w ⟨Color.black, 5, 2, false⟩ 4 1 []
  have hany : (landedMoves stateC4w ⟨Color.black, 4, 1, false⟩).any
      (fun p => decide (p.2 ≠ [])) = false := by decide
  exact ⟨h.1.1, hany, ((h.2 stateC4w ⟨Color.black, 4, 1, false⟩).2 hany).1⟩

/-- Drive a sequence of select commands (row, col) from a state, as the main
loop does for mouse clicks. -/
def playL (s : GameState) (ms : List (Int × Int)) : GameState :=
  ms.foldl (fun acc m => (select acc m.1 m.2).1) s

/-- Whether every select of the sequence was accepted. -/
def playAccepted (s : GameState) (ms : List (Int × Int)) : Bool :=
  (ms.foldl (fun acc m =>
    let r := select acc.1 m.1 m.2
    (r.1, acc.2 && r.2)) (s, true)).2

/-- A legal opening line from the standard starting position: eight quiet
moves, then white selects (2,3), whose double zigzag capture to (6,3) is
mandatory. -/
def lineC5 : List (Int × Int) :=
  [(2,1),(3,2), (5,6),(4,5), (1,0),(2,1), (5,2),(4,1), (0,1),(1,0),
   (6,3),(5,2), (2,5),(3,6), (4,5),(3,4), (2,3)]

/-- The session reached after lineC5: white has the piece at (2,3) selected
with the forced double capture to (6,3) in its move map. -/
def stateC5 : GameState := playL initial_state lineC5

def moverC5 : Checker := ⟨Color.white, 2, 3, false⟩

def capturedC5 : List Checker :=
  [⟨Color.black, 5, 4, false⟩, ⟨Color.black, 3, 4, false⟩]

/-- C5 counterexample: in a state reached from the initial board purely
through accepted select commands, executing the double capture of the white
man at (2,3) to (6,3) places the moving piece on the light square (3,3)
after the first decomposed step ((3+3) % 2 = 0), so the light-square
emptiness invariant fails at an intermediate step of a decomposed
multi-capture. -/
theorem C5_counterexample_light_square_occupied :
    playAccepted initial_state lineC5 = true ∧
    stateC5.selected = some moverC5 ∧
    dictGet stateC5.valid_moves (6, 3) = some capturedC5 ∧
    ((3 : Int) + 3) % 2 = 0 ∧
    get_checker (exec_steps_upto stateC5.grid moverC5
      (split_multi_capture moverC5 6 3 capturedC5) 1).1 3 3 =
      some ⟨Color.white, 3, 3, false⟩ ∧
    (select stateC5 6 3).2 = true := by
  refine ⟨by decide, by decide, by decide, by decide, by decide, by decide⟩

theorem mem_dictKeys_insert (m : MoveMap) (k : Int × Int) (v : List Checker)
    (x : Int × Int) (hx : x ∈ dictKeys (dictInsert m k v)) : x ∈ dictKeys m ∨ x = k := by
  unfold dictInsert at hx
  split at hx
  · unfold dictKeys at hx
    rw [List.mem_map] at hx
    obtain ⟨q, hq, hqx⟩ := hx
    rw [List.mem_map] at hq
    obtain ⟨p, hp, hpq⟩ := hq
    by_cases hc : p.1 = k
    · right
      rw [← hqx, ← hpq, if_pos hc]
    · left
      rw [← hqx, ← hpq, if_neg hc]
      exact List.mem_map.mpr ⟨p, hp, rfl⟩
  · unfold dictKeys at hx
    rw [List.map_append, List.mem_append] at hx
    rcases hx with h | h
    · exact Or.inl h
    · right
      simpa using h

theorem mem_dictKeys_foldl_insert : ∀ (m2 m : MoveMap) (x : Int × Int),
    x ∈ dictKeys (m2.foldl (fun acc p => dictInsert acc p.1 p.2) m) →
    x ∈ dictKeys m ∨ x ∈ dictKeys m2 := by
  intro m2
  induction m2 with
  | nil => intro m x hx; exact Or.inl hx
  | cons p l ih =>
      intro m x hx
      rcases ih (dictInsert m p.1 p.2) x hx with h | h
      · rcases mem_dictKeys_insert m p.1 p.2 x h with h1 | h1
        · exact Or.inl h1
        · right
          rw [h1]
          exact List.mem_map.mpr ⟨p, List.mem_cons_self p l, rfl⟩
      · right
        unfold dictKeys at h ⊢
        rw [List.map_cons]
        exact List.mem_cons_of_mem _ h

theorem mem_dictKeys_update (m m2 : MoveMap) (x : Int × Int)
    (hx : x ∈ dictKeys (dictUpdate m m2)) : x ∈ dictKeys m ∨ x ∈ dictKeys m2 :=
  mem_dictKeys_foldl_insert m2 m x hx

/-- Every destination produced by the diagonal scans lies on a square of the
same parity as the square the scan started from: each loop iteration moves
one row and one column, and each recursive continuation moves one further
row and one further column. -/
theorem traversal_keys_parity (f : Nat) :
    (∀ g start stop step color left skipped, (step = 1 ∨ step = -1) →
      ∀ k ∈ dictKeys (traverse_left f g start stop step color left skipped),
        (k.1 + k.2) % 2 = (start + left) % 2) ∧
    (∀ g start stop step color right skipped, (step = 1 ∨ step = -1) →
      ∀ k ∈ dictKeys (traverse_right f g start stop step color right skipped),
        (k.1 + k.2) % 2 = (start + right) % 2) ∧
    (∀ g r stop step color left skipped last, (step = 1 ∨ step = -1) →
      ∀ k ∈ dictKeys (tlGo f g r stop step color left skipped last),
        (k.1 + k.2) % 2 = (r + left) % 2) ∧
    (∀ g r stop step color right skipped last, (step = 1 ∨ step = -1) →
      ∀ k ∈ dictKeys (trGo f g r stop step color right skipped last),
        (k.1 + k.2) % 2 = (r + right) % 2) := by
  induction f with
  | zero =>
      refine ⟨?_, ?_, ?_, ?_⟩
      · intro g start stop step color left skipped hstep k hk
        exact absurd hk (List.not_mem_nil k)
      · intro g start stop step color right skipped hstep k hk
        exact absurd hk (List.not_mem_nil k)
      · intro g r stop step color left skipped last hstep k hk
        exact absurd hk (List.not_mem_nil k)
      · intro g r stop step color right skipped last hstep k hk
        exact absurd hk (List.not_mem_nil k)
  | succ f ih =>
      obtain ⟨ihl, ihr, ihgl, ihgr⟩ := ih
      have hgl : ∀ g r stop step color left skipped last, (step = 1 ∨ step = -1) →
          ∀ k ∈ dictKeys (tlGo (f+1) g r stop step color left skipped last),
          (k.1 + k.2) % 2 = (r + left) % 2 := by
        intro g r stop step color left skipped last hstep k hk
        unfold tlGo at hk
        split at hk
        · exact absurd hk (List.not_mem_nil k)
        · split at hk
          · exact absurd hk (List.not_mem_nil k)
          · split at hk
            · split at hk
              · exact absurd hk (List.not_mem_nil k)
              · dsimp only at hk
                split at hk
                · rcases mem_dictKeys_update _ _ k hk with hk1 | hk1
                  · rcases mem_dictKeys_update _ _ k hk1 with hk2 | hk2
                    · have hke : k = (r, left) := by simpa [dictKeys] using hk2
                      rw [hke]
                    · have h2 := ihl g (r+step) _ step color (left-1) _ hstep k hk2
                      rcases hstep with h1 | h1 <;> (rw [h1] at h2; omega)
                  · have h2 := ihr g (r+step) _ step color (left+1) _ hstep k hk1
                    rcases hstep with h1 | h1 <;> (rw [h1] at h2; omega)
                · have hke : k = (r, left) := by simpa [dictKeys] using hk
                  rw [hke]
            · split at hk
              · exact absurd hk (List.not_mem_nil k)
              · have h2 := ihgl g (r+step) stop step color (left-1) skipped _ hstep k hk
                rcases hstep with h1 | h1 <;> (rw [h1] at h2; omega)
      have hgr : ∀ g r stop step color right skipped last, (step = 1 ∨ step = -1) →
          ∀ k ∈ dictKeys (trGo (f+1) g r stop step color right skipped last),
          (k.1 + k.2) % 2 = (r + right) % 2 := by
        intro g r stop step color right skipped last hstep k hk
        unfold trGo at hk
        split at hk
        · exact absurd hk (List.not_mem_nil k)
        · split at hk
          · exact absurd hk (List.not_mem_nil k)
          · split at hk
            · split at hk
              · exact absurd hk (List.not_mem_nil k)
              · dsimp only at hk
                split at hk
                · rcases mem_dictKeys_update _ _ k hk with hk1 | hk1
                  · rcases mem_dictKeys_update _ _ k hk1 with hk2 | hk2
                    · have hke : k = (r, right) := by simpa [dictKeys] using hk2
                      rw [hke]
                    · have h2 := ihl g (r+step) _ step color (right-1) _ hstep k hk2
                      rcases hstep with h1 | h1 <;> (rw [h1] at h2; omega)
                  · have h2 := ihr g (r+step) _ step color (right+1) _ hstep k hk1
                    rcases hstep with h1 | h1 <;> (rw [h1] at h2; omega)
                · have hke : k = (r, right) := by simpa [dictKeys] using hk
                  rw [hke]
            · split at hk
              · exact absurd hk (List.not_mem_nil k)
              · have h2 := ihgr g (r+step) stop step color (right+1) skipped _ hstep k hk
                rcases hstep with h1 | h1 <;> (rw [h1] at h2; omega)
      refine ⟨?_, ?_, hgl, hgr⟩
      · intro g start stop step color left skipped hstep k hk
        unfold traverse_left at hk
        exact ihgl g start stop step color left skipped [] hstep k hk
      · intro g start stop step color right skipped hstep k hk
        unfold traverse_right at hk
        exact ihgr g start stop step color right skipped [] hstep k hk

theorem get_checker_setCell_ne (g : Grid) (row col : Int) (v : Option Checker) (r2 c2 : Int)
    (h : ¬(row.toNat = r2.toNat ∧ col.toNat = c2.toNat)) :
    get_checker (setCell g row col v) r2 c2 = get_checker g r2 c2 := by
  by_cases hb : 0 ≤ r2 ∧ r2 < boardRows ∧ 0 ≤ c2 ∧ c2 < boardCols
  · rw [get_checker, if_pos hb, get_checker, if_pos hb]
    unfold setCell
    simp only [List.getD_eq_getElem?_getD]
    by_cases hi : row.toNat = r2.toNat
    · have hj : col.toNat ≠ c2.toNat := fun hj => h ⟨hi, hj⟩
      rw [List.getElem?_set, if_pos hi]
      by_cases hlen : row.toNat < g.length
      · rw [if_pos hlen]
        simp only [Option.getD_some]
        rw [List.getElem?_set_ne hj, hi]
      · rw [if_neg hlen]
        have hnone : g[r2.toNat]? = none := List.getElem?_eq_none (by omega)
        rw [hnone]
    · rw [List.getElem?_set_ne hi]
  · rw [get_checker, if_neg hb, get_checker, if_neg hb]

theorem get_checker_setCell_none_or (g : Grid) (row col : Int) (r2 c2 : Int) :
    get_checker (setCell g row col none) r2 c2 = none ∨
    get_checker (setCell g row col none) r2 c2 = get_checker g r2 c2 := by
  by_cases h : row.toNat = r2.toNat ∧ col.toNat = c2.toNat
  · by_cases hb : 0 ≤ r2 ∧ r2 < boardRows ∧ 0 ≤ c2 ∧ c2 < boardCols
    · left
      rw [get_checker, if_pos hb]
      unfold setCell
      simp only [List.getD_eq_getElem?_getD]
      rw [List.getElem?_set, if_pos h.1]
      by_cases hlen : row.toNat < g.length
      · rw [if_pos hlen]
        simp only [Option.getD_some]
        rw [List.getElem?_set, if_pos h.2]
        by_cases hlen2 : col.toNat < (g[row.toNat]?.getD []).length
        · rw [if_pos hlen2]; rfl
        · rw [if_neg hlen2]; rfl
      · rw [if_neg hlen]
        rfl
    · left
      rw [get_checker, if_neg hb]
  · right
    exact get_checker_setCell_ne g row col none r2 c2 h

/-- Light-square emptiness: every cell whose coordinate sum is even is empty. -/
def lightEmpty (g : Grid) : Prop :=
  ∀ r c : Int, (r + c) % 2 = 0 → get_checker g r c = none

theorem lightEmpty_setCell_none (g : Grid) (row col : Int) (h : lightEmpty g) :
    lightEmpty (setCell g row col none) := by
  intro r2 c2 h2
  rcases get_checker_setCell_none_or g row col r2 c2 with h1 | h1
  · exact h1
  · rw [h1]
    exact h r2 c2 h2

theorem lightEmpty_setCell_dark (g : Grid) (row col : Int) (v : Option Checker)
    (hr : 0 ≤ row) (hc : 0 ≤ col) (hpar : (row + col) % 2 = 1) (h : lightEmpty g) :
    lightEmpty (setCell g row col v) := by
  intro r2 c2 h2
  by_cases hb : 0 ≤ r2 ∧ r2 < boardRows ∧ 0 ≤ c2 ∧ c2 < boardCols
  · have hne : ¬(row.toNat = r2.toNat ∧ col.toNat = c2.toNat) := by
      intro he
      have e1 := he.1
      have e2 := he.2
      omega
    rw [get_checker_setCell_ne g row col v r2 c2 hne]
    exact h r2 c2 h2
  · rw [get_checker, if_neg hb]

theorem lightEmpty_board_remove (cs : List Checker) : ∀ (g : Grid), lightEmpty g →
    lightEmpty (board_remove g cs) := by
  induction cs with
  | nil => intro g h; exact h
  | cons c l ih =>
      intro g h
      exact ih (setCell g c.row c.col none) (lightEmpty_setCell_none g c.row c.col h)

theorem lightEmpty_board_move (g : Grid) (c : Checker) (row col : Int)
    (h : lightEmpty g) (hr : 0 ≤ row) (hc : 0 ≤ col) (hpar : (row + col) % 2 = 1) :
    lightEmpty (board_move g c row col).1 := by
  unfold board_move
  exact lightEmpty_setCell_dark _ row col _ hr hc hpar
    (lightEmpty_setCell_none g c.row c.col h)

theorem mem_dictKeys_filter (m : MoveMap) (pred : (Int × Int) × List Checker → Bool)
    (x : Int × Int) (hx : x ∈ dictKeys (m.filter pred)) : x ∈ dictKeys m := by
  unfold dictKeys at hx ⊢
  rw [List.mem_map] at hx
  obtain ⟨p, hp, he⟩ := hx
  exact List.mem_map.mpr ⟨p, List.mem_of_mem_filter hp, he⟩

theorem up_captures_keys_parity (g : Grid) (ck : Checker) :
    ∀ k ∈ dictKeys (up_captures g ck), (k.1 + k.2) % 2 = (ck.row + ck.col) % 2 := by
  intro k hk
  unfold up_captures at hk
  split at hk
  · rcases mem_dictKeys_update _ _ k hk with h1 | h1
    · rcases mem_dictKeys_update _ _ k h1 with h2 | h2
      · exact absurd h2 (List.not_mem_nil k)
      · have hp := (traversal_keys_parity fuelN).1 g (ck.row-1) (max (ck.row-3) (-1)) (-1)
          ck.color (ck.col-1) [] (Or.inr rfl) k h2
        omega
    · have hp := (traversal_keys_parity fuelN).2.1 g (ck.row-1) (max (ck.row-3) (-1)) (-1)
        ck.color (ck.col+1) [] (Or.inr rfl) k h1
      omega
  · exact absurd hk (List.not_mem_nil k)

theorem all_captures_keys_parity (g : Grid) (ck : Checker) :
    ∀ k ∈ dictKeys (all_captures g ck), (k.1 + k.2) % 2 = (ck.row + ck.col) % 2 := by
  intro k hk
  unfold all_captures at hk
  split at hk
  · rcases mem_dictKeys_update _ _ k hk with h1 | h1
    · rcases mem_dictKeys_update _ _ k h1 with h2 | h2
      · exact up_captures_keys_parity g ck k h2
      · have hp := (traversal_keys_parity fuelN).1 g (ck.row+1) (min (ck.row+3) boardRows) 1
          ck.color (ck.col-1) [] (Or.inl rfl) k h2
        omega
    · have hp := (traversal_keys_parity fuelN).2.1 g (ck.row+1) (min (ck.row+3) boardRows) 1
        ck.color (ck.col+1) [] (Or.inl rfl) k h1
      omega
  · exact up_captures_keys_parity g ck k hk

theorem quiet_moves_keys_parity (g : Grid) (ck : Checker) :
    ∀ k ∈ dictKeys (quiet_moves g ck), (k.1 + k.2) % 2 = (ck.row + ck.col) % 2 := by
  intro k hk
  unfold quiet_moves dictKeys at hk
  rw [List.map_append, List.mem_append] at hk
  rcases hk with hk | hk
  · split at hk
    · rw [List.map_append, List.mem_append] at hk
      rcases hk with hk | hk
      · split at hk
        · have hke : k = (ck.row-1, ck.col-1) := by simpa using hk
          rw [hke]
          dsimp only
          omega
        · exact absurd hk (List.not_mem_nil k)
      · split at hk
        · have hke : k = (ck.row-1, ck.col+1) := by simpa using hk
          rw [hke]
          dsimp only
          omega
        · exact absurd hk (List.not_mem_nil k)
    · exact absurd hk (List.not_mem_nil k)
  · split at hk
    · rw [List.map_append, List.mem_append] at hk
      rcases hk with hk | hk
      · split at hk
        · have hke : k = (ck.row+1, ck.col-1) := by simpa using hk
          rw [hke]
          dsimp only
          omega
        · exact absurd hk (List.not_mem_nil k)
      · split at hk
        · have hke : k = (ck.row+1, ck.col+1) := by simpa using hk
          rw [hke]
          dsimp only
          omega
        · exact absurd hk (List.not_mem_nil k)
    · exact absurd hk (List.not_mem_nil k)

theorem get_valid_moves_keys_parity (g : Grid) (ck : Checker) :
    ∀ k ∈ dictKeys (get_valid_moves g ck), (k.1 + k.2) % 2 = (ck.row + ck.col) % 2 := by
  intro k hk
  unfold get_valid_moves at hk
  split at hk
  · exact all_captures_keys_parity g ck k (mem_dictKeys_filter _ _ k hk)
  · exact quiet_moves_keys_parity g ck k hk

theorem lightEmpty_create_board : lightEmpty create_board := by
  intro r c h
  by_cases hb : 0 ≤ r ∧ r < boardRows ∧ 0 ≤ c ∧ c < boardCols
  · have hr8 : r < 8 := hb.2.1
    have hc8 : c < 8 := hb.2.2.2
    have hmem : (r, c) ∈ boardCells := mem_boardCells r c hb.1 hr8 hb.2.2.1 hc8
    have hall : ∀ pos ∈ boardCells, (pos.1 + pos.2) % 2 = 0 →
        get_checker create_board pos.1 pos.2 = none := by decide
    exact hall (r, c) hmem h
  · rw [get_checker, if_neg hb]

/-- C5 amended: light squares are empty on the initial board and stay empty
across completed board operations — every destination generated by
get_valid_moves has the same square parity as the moving piece's square,
removals never occupy a cell, and relocating a piece to a dark in-range
square preserves the invariant. The invariant can still fail transiently at
the intermediate steps of a decomposed multi-capture (see the
counterexample), which move the piece through buggy midpoint squares. -/
theorem C5_amended_light_squares (g : Grid) (ck : Checker) (cs : List Checker)
    (c : Checker) (row col : Int) :
    lightEmpty create_board ∧
    (∀ k ∈ dictKeys (get_valid_moves g ck), (k.1 + k.2) % 2 = (ck.row + ck.col) % 2) ∧
    (lightEmpty g → lightEmpty (board_remove g cs)) ∧
    (lightEmpty g → 0 ≤ row → 0 ≤ col → (row + col) % 2 = 1 →
      lightEmpty (board_move g c row col).1) :=
  ⟨lightEmpty_create_board, get_valid_moves_keys_parity g ck,
   lightEmpty_board_remove cs g,
   fun h hr hc hpar => lightEmpty_board_move g c row col h hr hc hpar⟩

theorem C5_amended_light_squares_witness :
    ((3 : Int) + 0) % 2 = ((2 : Int) + 1) % 2 ∧
    get_checker (board_move create_board ⟨Color.white, 2, 1, false⟩ 3 2).1 0 0 = none := by
  have h := C5_amended_light_squares create_board ⟨Color.white, 2, 1, false⟩ []
    ⟨Color.white, 2, 1, false⟩ 3 2
  refine ⟨h.2.1 (3, 0) (by decide), ?_⟩
  exact h.2.2.2 h.1 (by norm_num) (by norm_num) (by norm_num) 0 0 (by norm_num)


/-- C6: Promotion and its idempotence — the promotion check shared by both
turn-end paths sets is_king exactly when the landing row is the farthest row
for the piece's color (so a man landing there becomes a king whether it
arrived by quiet move, single capture, or capture chain, and is_king is never
cleared); when is_king is already true the check changes nothing; relocation
never alters the king flag; and both _on_single_move_complete and
_finish_multicapture write exactly the promotion-checked piece to the grid. -/
theorem C6_promotion_idempotent (s : GameState) (c : Checker) (row col : Int) (g : Grid) :
    ((promoteIfFarRow c row).is_king =
      (c.is_king || decide ((row = 0 ∧ c.color = Color.black) ∨
        (row = boardRows - 1 ∧ c.color = Color.white)))) ∧
    (c.is_king = true → promoteIfFarRow c row = c) ∧
    ((board_move g c row col).2.is_king = c.is_king) ∧
    ((on_single_move_complete s c row col).grid =
      setCell s.grid (promoteIfFarRow c row).row (promoteIfFarRow c row).col
        (some (promoteIfFarRow c row))) ∧
    ((finish_multicapture s c).grid = landedGrid s c) := by
  refine ⟨?_, ?_, rfl, ?_, ?_⟩
  · unfold promoteIfFarRow
    by_cases h : (row = 0 ∧ c.color = Color.black) ∨ (row = boardRows - 1 ∧ c.color = Color.white)
    · rw [if_pos h]
      simp [h]
    · rw [if_neg h]
      simp [h]
  · intro hk
    unfold promoteIfFarRow
    split
    · cases c
      simp_all
    · rfl
  · exact (change_turn_fields _).2.2.2
  · unfold finish_multicapture landedGrid landedChecker
    dsimp only
    split
    · rfl
    · exact (change_turn_fields _).2.2.2

theorem C6_promotion_idempotent_witness :
    promoteIfFarRow ⟨Color.black, 0, 1, true⟩ 0 = ⟨Color.black, 0, 1, true⟩ :=
  (C6_promotion_idempotent initial_state ⟨Color.black, 0, 1, true⟩ 0 1 create_board).2.1 rfl


theorem Color.opp_opp (c : Color) : c.opp.opp = c := by cases c <;> rfl

/-- C7: Termination — after the turn flips, if the new side to move has no
valid moves the session becomes game_over and the winner value computed in
change_turn is the opposing color (the previous mover); otherwise, if a
color's piece count is zero, the session becomes game_over and the winner is
the color whose opponent has zero pieces (white count is tested first). -/
theorem C7_termination (s : GameState) :
    (get_all_valid_moves s.grid s.turn.opp = [] →
      (change_turn s).1.game_over = true ∧ (change_turn s).2 = some s.turn) ∧
    (get_all_valid_moves s.grid s.turn.opp ≠ [] →
      (countColor s.grid Color.white = 0 →
        (change_turn s).1.game_over = true ∧ (change_turn s).2 = some Color.black) ∧
      (countColor s.grid Color.white ≠ 0 → countColor s.grid Color.black = 0 →
        (change_turn s).1.game_over = true ∧ (change_turn s).2 = some Color.white)) := by
  constructor
  · intro hemp
    unfold change_turn check_game_over
    dsimp only
    rw [if_pos hemp]
    exact ⟨rfl, by rw [Color.opp_opp]⟩
  · intro hne
    unfold change_turn check_game_over
    dsimp only
    rw [if_neg hne]
    constructor
    · intro hw
      unfold board_winner
      rw [if_pos hw]
      exact ⟨rfl, rfl⟩
    · intro hw hb
      unfold board_winner
      rw [if_neg hw, if_pos hb]
      exact ⟨rfl, rfl⟩

/-- Witness state: black to move hands the turn to a white side with no
pieces and hence no moves. -/
def stateC7w : GameState := { initial_state with
  grid := (List.range 8).map (fun row => (List.range 8).map (fun col =>
    if (row, col) = (5, 0) then some ⟨Color.black, 5, 0, false⟩ else none)),
  turn := Color.black }

/-- Witness state: white to move hands the turn to black, which still has a
move, while white's own piece count is zero. -/
def stateC7w2 : GameState := { initial_state with
  grid := (List.range 8).map (fun row => (List.range 8).map (fun col =>
    if (row, col) = (5, 2) then some ⟨Color.black, 5, 2, false⟩ else none)),
  turn := Color.white }

theorem C7_termination_witness :
    ((change_turn stateC7w).1.game_over = true ∧
      (change_turn stateC7w).2 = some Color.black) ∧
    ((change_turn stateC7w2).1.game_over = true ∧
      (change_turn stateC7w2).2 = some Color.black) :=
  ⟨(C7_termination stateC7w).1 (by decide),
   ((C7_termination stateC7w2).2 (by decide)).1 (by decide)⟩


/-- C8 counterexample: after white legitimately selects the man at (2,1),
a rejected click on the empty cell (0,0) returns False but clears the
selection and the valid-move map, so the session state is not exactly what
it was before the call. -/
theorem C8_counterexample_rejection_mutates :
    (select initial_state 2 1).2 = true ∧
    (select initial_state 2 1).1.selected = some ⟨Color.white, 2, 1, false⟩ ∧
    (select (select initial_state 2 1).1 0 0).2 = false ∧
    ¬ ((select (select initial_state 2 1).1 0 0).1 = (select initial_state 2 1).1) ∧
    (select (select initial_state 2 1).1 0 0).1.selected = none ∧
    (select (select initial_state 2 1).1 0 0).1.valid_moves = [] := by
  refine ⟨by decide, by decide, by decide, by decide, by decide, by decide⟩

theorem select_move_phase_false (s : GameState) (row col : Int) (mc : Bool)
    (h : (select_move_phase s row col mc).2 = false) :
    (select_move_phase s row col mc).1.grid = s.grid ∧
    (select_move_phase s row col mc).1.turn = s.turn ∧
    (select_move_phase s row col mc).1.game_over = s.game_over ∧
    (select_move_phase s row col mc).1.multi_capture = s.multi_capture ∧
    ((select_move_phase s row col mc).1 = s ∨
      ((select_move_phase s row col mc).1.selected = none ∧
       (select_move_phase s row col mc).1.valid_moves = [])) := by
  cases hsel : s.selected with
  | none =>
      simp only [select_move_phase, hsel]
      simp
  | some c =>
      cases hget : dictGet s.valid_moves (row, col) with
      | none =>
          simp only [select_move_phase, hsel, hget]
          simp
      | some captured =>
          by_cases hcond : mc = true ∧ captured = []
          · simp only [select_move_phase, hsel, hget, if_pos hcond]
            simp
          · exfalso
            simp only [select_move_phase, hsel, hget, if_neg hcond] at h
            exact Bool.noConfusion h

/-- C8 amended: a rejected select never mutates the board grid, the turn,
the game-over flag, or the multi-capture list; the state is either entirely
unchanged (game-over guard, mandatory-capture ineligibility, quiet
destination under mandatory capture) or has exactly its selection cleared
and its valid-move map emptied (the catch-all invalid-selection branch). -/
theorem C8_amended_rejection_clears_selection_only (s : GameState) (row col : Int)
    (h : (select s row col).2 = false) :
    (select s row col).1.grid = s.grid ∧
    (select s row col).1.turn = s.turn ∧
    (select s row col).1.game_over = s.game_over ∧
    (select s row col).1.multi_capture = s.multi_capture ∧
    ((select s row col).1 = s ∨
      ((select s row col).1.selected = none ∧ (select s row col).1.valid_moves = [])) := by
  by_cases hgo : s.game_over = true
  · simp only [select, if_pos hgo]
    simp
  · cases hck : get_checker s.grid row col with
    | none =>
        have hsimp : select s row col = select_move_phase s row col
            ((get_all_valid_moves s.grid s.turn).any
              (fun p => p.2.any (fun q => decide (q.2 ≠ [])))) := by
          simp only [select, if_neg hgo, hck]
        rw [hsimp] at h ⊢
        exact select_move_phase_false s row col _ h
    | some ck =>
        by_cases hown : ck.color = s.turn ∧ s.multi_capture = []
        · by_cases hmc : ((get_all_valid_moves s.grid s.turn).any
              (fun p => p.2.any (fun q => decide (q.2 ≠ [])))) = true ∧
              ¬ ((get_valid_moves s.grid ck).any (fun q => decide (q.2 ≠ [])) = true)
          · simp only [select, if_neg hgo, hck, if_pos hown, if_pos hmc]
            simp
          · by_cases hvm : ((get_all_valid_moves s.grid s.turn).any
                  (fun p => p.2.any (fun q => decide (q.2 ≠ [])))) = true ∧
                (if ((get_all_valid_moves s.grid s.turn).any
                    (fun p => p.2.any (fun q => decide (q.2 ≠ []))))
                  then (get_valid_moves s.grid ck).filter (fun p => decide (p.2 ≠ []))
                  else get_valid_moves s.grid ck) = []
            · simp only [select, if_neg hgo, hck, if_pos hown, if_neg hmc, if_pos hvm]
              exact ⟨trivial, trivial, trivial, trivial, Or.inr ⟨trivial, hvm.2⟩⟩
            · exfalso
              simp only [select, if_neg hgo, hck, if_pos hown, if_neg hmc, if_neg hvm] at h
              exact Bool.noConfusion h
        · have hsimp : select s row col = select_move_phase s row col
              ((get_all_valid_moves s.grid s.turn).any
                (fun p => p.2.any (fun q => decide (q.2 ≠ [])))) := by
            simp only [select, if_neg hgo, hck, if_neg hown]
          rw [hsimp] at h ⊢
          exact select_move_phase_false s row col _ h


theorem C8_amended_rejection_clears_selection_only_witness :
    (select initial_state 0 0).2 = false ∧
    (select initial_state 0 0).1.grid = initial_state.grid ∧
    (select initial_state 0 0).1.turn = initial_state.turn ∧
    ((select initial_state 0 0).1 = initial_state ∨
      ((select initial_state 0 0).1.selected = none ∧
       (select initial_state 0 0).1.valid_moves = [])) := by
  have hf : (select initial_state 0 0).2 = false := by decide
  have h := C8_amended_rejection_clears_selection_only initial_state 0 0 hf
  exact ⟨hf, h.1, h.2.1, h.2.2.2.2⟩


/-- An entry of the flattened move list built by AIPlayer.get_move:
(start position, end position, captured list). -/
abbrev AIMove := (Int × Int) × (Int × Int) × List Checker

/-- The flattening of the color-level move dict in AIPlayer.get_move. -/
def flatten_moves (vm : List ((Int × Int) × MoveMap)) : List AIMove :=
  vm.flatMap (fun p => p.2.map (fun q => (p.1, q.1, q.2)))

/-- The capturing subset of the flattened list (len(m[2]) > 0). -/
def capturing_moves (ms : List AIMove) : List AIMove :=
  ms.filter (fun m => decide (m.2.2.length > 0))

/-- max(len(m[2]) for m in capturing_moves); embedded as a fold from 0,
which agrees with Python max on the non-empty all-positive lists it is
applied to. -/
def max_captures (ms : List AIMove) : Nat :=
  ((capturing_moves ms).map (fun m => m.2.2.length)).foldl Nat.max 0

/-- The maximal-capture tie set of get_medium_move / get_hard_move. -/
def best_moves (ms : List AIMove) : List AIMove :=
  (capturing_moves ms).filter (fun m => decide (m.2.2.length = max_captures ms))

/-- AIPlayer.get_medium_move: random.choice is modelled by membership in the
returned candidate list. -/
def get_medium_move_candidates (ms : List AIMove) : List AIMove :=
  if capturing_moves ms ≠ [] then best_moves ms else ms

/-- The promoting-capture test of get_hard_move: the moving piece is not a
king and the destination row is the farthest row for its color. A start
square with no checker raises in Python; it is modelled as excluded. -/
def promoting_filter (g : Grid) (m : AIMove) : Bool :=
  match get_checker g m.1.1 m.1.2 with
  | some ck => !ck.is_king &&
      (decide (ck.color = Color.black ∧ m.2.1.1 = 0) ||
       decide (ck.color = Color.white ∧ m.2.1.1 = boardRows - 1))
  | none => false

/-- The forward-move test of the capture-free branch of get_hard_move. -/
def forward_filter (g : Grid) (m : AIMove) : Bool :=
  match get_checker g m.1.1 m.1.2 with
  | some ck => !ck.is_king &&
      (decide (ck.color = Color.black ∧ m.2.1.1 < m.1.1) ||
       decide (ck.color = Color.white ∧ m.2.1.1 > m.1.1))
  | none => false

/-- AIPlayer.get_hard_move: capture maximization as in Medium, then the
promoting-capture preference; with no captures, the forward-move preference. -/
def get_hard_move_candidates (g : Grid) (ms : List AIMove) : List AIMove :=
  if capturing_moves ms ≠ [] then
    if (best_moves ms).filter (promoting_filter g) ≠ [] then
      (best_moves ms).filter (promoting_filter g)
    else best_moves ms
  else
    if ms.filter (forward_filter g) ≠ [] then ms.filter (forward_filter g)
    else ms

/-- AIPlayer.get_move: flatten, return None on an empty list, then dispatch
on the difficulty (0 easy, 1 medium, else hard); the random tie-break is
modelled by the returned candidate list. -/
def get_move_candidates (difficulty : Nat) (g : Grid)
    (vm : List ((Int × Int) × MoveMap)) : Option (List AIMove) :=
  if flatten_moves vm = [] then none
  else if difficulty = 0 then some (flatten_moves vm)
  else if difficulty = 1 then some (get_medium_move_candidates (flatten_moves vm))
  else some (get_hard_move_candidates g (flatten_moves vm))

theorem le_foldl_max (l : List Nat) : ∀ (a x : Nat), x ∈ l ∨ x = a →
    x ≤ l.foldl Nat.max a := by
  induction l with
  | nil =>
      intro a x h
      rcases h with h | h
      · exact absurd h (List.not_mem_nil x)
      · rw [h]
        exact Nat.le_refl a
  | cons y ys ih =>
      intro a x h
      have hacc : Nat.max a y ≤ List.foldl Nat.max (Nat.max a y) ys :=
        ih (Nat.max a y) (Nat.max a y) (Or.inr rfl)
      show x ≤ List.foldl Nat.max (Nat.max a y) ys
      rcases h with h | h
      · rcases List.mem_cons.mp h with h1 | h1
        · rw [h1]
          exact le_trans (Nat.le_max_right a y) hacc
        · exact ih (Nat.max a y) x (Or.inl h1)
      · rw [h]
        exact le_trans (Nat.le_max_left a y) hacc

theorem foldl_max_mem_or (l : List Nat) : ∀ (a : Nat),
    l.foldl Nat.max a ∈ l ∨ l.foldl Nat.max a = a := by
  induction l with
  | nil => intro a; exact Or.inr rfl
  | cons y ys ih =>
      intro a
      rw [List.foldl_cons]
      rcases ih (Nat.max a y) with h | h
      · exact Or.inl (List.mem_cons_of_mem y h)
      · rcases Nat.le_total a y with h1 | h1
        · left
          have h2 : Nat.max a y = y := Nat.max_eq_right h1
          rw [h, h2]
          exact List.mem_cons_self y ys
        · right
          have h2 : Nat.max a y = a := Nat.max_eq_left h1
          rw [h, h2]


theorem mem_capturing_moves (ms : List AIMove) (m : AIMove)
    (h : m ∈ capturing_moves ms) : m ∈ ms ∧ m.2.2 ≠ [] := by
  refine ⟨List.mem_of_mem_filter h, ?_⟩
  have h2 := List.of_mem_filter h
  intro he
  rw [he] at h2
  simp at h2

theorem mem_best_moves (ms : List AIMove) (m : AIMove) (h : m ∈ best_moves ms) :
    m ∈ capturing_moves ms ∧ m.2.2.length = max_captures ms := by
  refine ⟨List.mem_of_mem_filter h, ?_⟩
  have h2 := List.of_mem_filter h
  simpa using h2

theorem best_moves_ne_nil (ms : List AIMove) (h : capturing_moves ms ≠ []) :
    best_moves ms ≠ [] := by
  obtain ⟨m0, hm0⟩ := List.exists_mem_of_ne_nil _ h
  rcases foldl_max_mem_or ((capturing_moves ms).map (fun m => m.2.2.length)) 0 with hmem | h0
  · rw [List.mem_map] at hmem
    obtain ⟨m1, hm1, he⟩ := hmem
    intro hnil
    have hmem1 : m1 ∈ best_moves ms := by
      unfold best_moves
      refine List.mem_filter.mpr ⟨hm1, ?_⟩
      unfold max_captures
      simp [he]
    rw [hnil] at hmem1
    exact absurd hmem1 (List.not_mem_nil m1)
  · exfalso
    have hle : m0.2.2.length ≤ ((capturing_moves ms).map (fun m => m.2.2.length)).foldl Nat.max 0 :=
      le_foldl_max _ 0 _ (Or.inl (List.mem_map.mpr ⟨m0, hm0, rfl⟩))
    have hpos : 0 < m0.2.2.length := by
      have h2 := List.of_mem_filter hm0
      simpa using h2
    omega

/-- C9: AI capture maximization — with at least one capturing entry in the
flattened move list, every possible random outcome of Medium and Hard (any
member of the computed candidate list, which is non-empty) is a capturing
entry whose captured-list length equals the maximum captured-list length;
with no capture, Medium draws from the full list. get_move dispatches the
difficulty constants 1 and 2 to exactly these candidate lists. -/
theorem C9_ai_capture_maximization (g : Grid) (ms : List AIMove) :
    (capturing_moves ms ≠ [] →
      get_medium_move_candidates ms ≠ [] ∧
      get_hard_move_candidates g ms ≠ [] ∧
      (∀ m ∈ get_medium_move_candidates ms, m.2.2 ≠ [] ∧ m.2.2.length = max_captures ms) ∧
      (∀ m ∈ get_hard_move_candidates g ms, m.2.2 ≠ [] ∧ m.2.2.length = max_captures ms)) ∧
    (capturing_moves ms = [] → get_medium_move_candidates ms = ms) ∧
    (∀ vm : List ((Int × Int) × MoveMap), flatten_moves vm ≠ [] →
      get_move_candidates 1 g vm = some (get_medium_move_candidates (flatten_moves vm)) ∧
      get_move_candidates 2 g vm = some (get_hard_move_candidates g (flatten_moves vm))) := by
  have hbest : ∀ m ∈ best_moves ms, m.2.2 ≠ [] ∧ m.2.2.length = max_captures ms := by
    intro m hm
    obtain ⟨hc, hlen⟩ := mem_best_moves ms m hm
    exact ⟨(mem_capturing_moves ms m hc).2, hlen⟩
  refine ⟨?_, ?_, ?_⟩
  · intro hcap
    refine ⟨?_, ?_, ?_, ?_⟩
    · unfold get_medium_move_candidates
      rw [if_pos hcap]
      exact best_moves_ne_nil ms hcap
    · unfold get_hard_move_candidates
      rw [if_pos hcap]
      split
      · assumption
      · exact best_moves_ne_nil ms hcap
    · unfold get_medium_move_candidates
      rw [if_pos hcap]
      exact hbest
    · unfold get_hard_move_candidates
      rw [if_pos hcap]
      split
      · intro m hm
        exact hbest m (List.mem_of_mem_filter hm)
      · exact hbest
  · intro hnone
    unfold get_medium_move_candidates
    rw [if_neg (by simp [hnone])]
  · intro vm hne
    constructor
    · unfold get_move_candidates
      rw [if_neg hne]
      norm_num
    · unfold get_move_candidates
      rw [if_neg hne]
      norm_num


/-- Flattened move list for the C9 witness: one single capture, one double
capture, one quiet move. -/
def msC9w : List AIMove :=
  [((5, 2), (3, 4), [⟨Color.white, 4, 3, false⟩]),
   ((5, 2), (1, 6), [⟨Color.white, 2, 5, false⟩, ⟨Color.white, 4, 3, false⟩]),
   ((5, 0), (4, 1), [])]

/-- Capture-free flattened move list for the C9 witness. -/
def msC9q : List AIMove := [((5, 0), (4, 1), [])]

/-- Color-level move dict for the C9 dispatch witness. -/
def vmC9w : List ((Int × Int) × MoveMap) :=
  [((5, 2), [((3, 4), [⟨Color.white, 4, 3, false⟩])])]

theorem C9_ai_capture_maximization_witness :
    capturing_moves msC9w ≠ [] ∧
    get_medium_move_candidates msC9w ≠ [] ∧
    (∀ m ∈ get_medium_move_candidates msC9w, m.2.2 ≠ [] ∧ m.2.2.length = max_captures msC9w) ∧
    (∀ m ∈ get_hard_move_candidates create_board msC9w,
      m.2.2 ≠ [] ∧ m.2.2.length = max_captures msC9w) ∧
    get_medium_move_candidates msC9q = msC9q ∧
    get_move_candidates 1 create_board vmC9w =
      some (get_medium_move_candidates (flatten_moves vmC9w)) := by
  have h := C9_ai_capture_maximization create_board msC9w
  have hq := C9_ai_capture_maximization create_board msC9q
  have hcap : capturing_moves msC9w ≠ [] := by decide
  have hmain := h.1 hcap
  exact ⟨hcap, hmain.1, hmain.2.2.1, hmain.2.2.2, hq.2.1 (by decide),
    (h.2.2 vmC9w (by decide)).1⟩

/-- C10: Board.winner tie-breaking — the white piece count is tested first,
so a board with zero pieces of both colors reports black as the winner;
white wins exactly when black has zero pieces and white has at least one;
the result is None exactly when both colors still have a piece. -/
theorem C10_winner_tie_breaking (g : Grid) :
    (countColor g Color.white = 0 → board_winner g = some Color.black) ∧
    (board_winner g = some Color.white ↔
      countColor g Color.black = 0 ∧ countColor g Color.white ≠ 0) ∧
    (board_winner g = none ↔
      countColor g Color.white ≠ 0 ∧ countColor g Color.black ≠ 0) := by
  refine ⟨?_, ?_, ?_⟩
  · intro hw
    unfold board_winner
    rw [if_pos hw]
  · constructor
    · intro h
      unfold board_winner at h
      by_cases hw : countColor g Color.white = 0
      · rw [if_pos hw] at h
        exact absurd (Option.some.inj h) (by intro he; exact Color.noConfusion he)
      · rw [if_neg hw] at h
        by_cases hb : countColor g Color.black = 0
        · exact ⟨hb, hw⟩
        · rw [if_neg hb] at h
          exact Option.noConfusion h
    · intro ⟨hb, hw⟩
      unfold board_winner
      rw [if_neg hw, if_pos hb]
  · constructor
    · intro h
      unfold board_winner at h
      by_cases hw : countColor g Color.white = 0
      · rw [if_pos hw] at h
        exact Option.noConfusion h
      · by_cases hb : countColor g Color.black = 0
        · rw [if_neg hw, if_pos hb] at h
          exact Option.noConfusion h
        · exact ⟨hw, hb⟩
    · intro ⟨hw, hb⟩
      unfold board_winner
      rw [if_neg hw, if_neg hb]

/-- Empty board for the C10 witness: both piece counts are zero. -/
def gridC10 : Grid :=
  (List.range 8).map (fun _ => (List.range 8).map (fun _ => none))

theorem C10_winner_tie_breaking_witness :
    board_winner gridC10 = some Color.black ∧
    board_winner create_board = none :=
  ⟨(C10_winner_tie_breaking gridC10).1 (by decide),
   (C10_winner_tie_breaking create_board).2.2.mpr ⟨by decide, by decide⟩⟩


end Checkers
